import Mathlib

/-!
Shallow embedding of the `effect-cell` crate (`src/lib.rs`, `src/main.rs`).

An effect in the source is a boxed stateful callback `Box<dyn FnMut(&T)>`.
Its captured state lives outside the cell and the cell never inspects it, so an
effect is represented here by an identifier of an arbitrary type `E`, and every
operation returns, next to the resulting cell, a trace of the effect
invocations it performed: a list of pairs of the invoked effect and the value
it observed, in invocation order.  An operation that invokes no effect returns
the empty trace.  This trace determines the evolution of every callback's
captured state, so properties about "which effects ran, in what order, seeing
what value" are statements about the trace.
-/

variable {T E : Type}

/-- Embeds `struct EffectCell<T> { data: T, effects: Vec<Box<dyn FnMut(&T)>> }`:
the stored data plus the ordered effect registry, effects represented by
identifiers. -/
structure EffectCell (T E : Type) where
  data : T
  effects : List E
deriving Repr, DecidableEq

/-- Embeds `EffectCell::new`: the provided data and an empty registry. -/
def EffectCell.new (data : T) : EffectCell T E :=
  ⟨data, []⟩

/-- Embeds `EffectCell::into_inner`: returns the stored data; the cell is
destroyed without any effect running (the struct has no `Drop` impl, so
dropping the registry drops the closures without calling them). -/
def EffectCell.into_inner (c : EffectCell T E) : T :=
  c.data

/-- Embeds `EffectCell::bind`: pushes the new effect at the end of the
registry. -/
def EffectCell.bind (c : EffectCell T E) (effect : E) : EffectCell T E :=
  { c with effects := c.effects ++ [effect] }

/-- Embeds `EffectCell::call`: `for f in &mut self.effects { f(&self.data) }`.
Each registered effect, in registration order, is invoked with the current
data; the cell itself (data and registry) is unchanged. -/
def EffectCell.call (c : EffectCell T E) : EffectCell T E × List (E × T) :=
  (c, c.effects.map fun f => (f, c.data))

/-- Embeds `EffectCell::consume`: `self.call()` and then the cell is gone, so
only the trace remains. -/
def EffectCell.consume (c : EffectCell T E) : List (E × T) :=
  c.call.2

/-- Embeds `EffectCell::update`: `self.data = new; self.call()`. -/
def EffectCell.update (c : EffectCell T E) (new : T) :
    EffectCell T E × List (E × T) :=
  ({ c with data := new }).call

/-- Embeds `EffectCell::update_lambda`: `lambda(&mut self.data); self.call()`.
The in-place mutator `FnMut(&mut T)` is modelled as a function on values. -/
def EffectCell.update_lambda (c : EffectCell T E) (lambda : T → T) :
    EffectCell T E × List (E × T) :=
  ({ c with data := lambda c.data }).call

/-- Embeds `EffectCell::set`: `self.data = new;` with no effect invocation. -/
def EffectCell.set (c : EffectCell T E) (new : T) :
    EffectCell T E × List (E × T) :=
  ({ c with data := new }, [])

/-- Embeds `EffectCell::set_lambda`.  In the source the closure bound is
`FnMut(&T)` (a shared reference, unlike `update_lambda`, whose bound is
`FnMut(&mut T)`), so in `lambda(&mut self.data)` the argument goes through the
implicit `&mut T` to `&T` coercion and the closure receives a read-only view:
it cannot change the stored data, whatever mutator the caller intended.  The
cell is therefore returned unchanged, and no registered effect is invoked. -/
def EffectCell.set_lambda (c : EffectCell T E) (_lambda : T → T) :
    EffectCell T E × List (E × T) :=
  (c, [])

/-- Embeds the `impl_pass_op!` macro instantiated at `EffectCell` (all ten
compound-assignment operators): `self.data $op other; self.call()`, the
concrete binary operator being the parameter `op`. -/
def EffectCell.pass_op (c : EffectCell T E) (op : T → T → T) (other : T) :
    EffectCell T E × List (E × T) :=
  ({ c with data := op c.data other }).call

/-- Embeds `impl PartialEq for EffectCell<T>`: `self.data == other.data`,
where `beq` is the payload type's own equality. -/
def EffectCell.eq (beq : T → T → Bool) (c other : EffectCell T E) : Bool :=
  beq c.data other.data

/-- Embeds `impl PartialEq<T> for EffectCell<T>`: `&self.data == other`. -/
def EffectCell.eq_value (beq : T → T → Bool) (c : EffectCell T E) (other : T) :
    Bool :=
  beq c.data other

/-- Embeds `impl PartialOrd for EffectCell<T>`:
`self.data.partial_cmp(&other.data)`, where `pc` is the payload type's own
partial comparison. -/
def EffectCell.partial_cmp (pc : T → T → Option Ordering)
    (c other : EffectCell T E) : Option Ordering :=
  pc c.data other.data

/-- Embeds `impl PartialOrd<T> for EffectCell<T>`:
`self.data.partial_cmp(other)`. -/
def EffectCell.partial_cmp_value (pc : T → T → Option Ordering)
    (c : EffectCell T E) (other : T) : Option Ordering :=
  pc c.data other

/-- Embeds `enum EffectOrder { Prior, Post }`. -/
inductive EffectOrder where
  | Prior
  | Post
deriving Repr, DecidableEq

/-- Embeds `struct OrderedEffectCell<T>`: the stored data plus the two ordered
registries, `prior_effects` and `post_effects`. -/
structure OrderedEffectCell (T E : Type) where
  data : T
  prior_effects : List E
  post_effects : List E
deriving Repr, DecidableEq

/-- Embeds `OrderedEffectCell::new`: the provided data and two empty
registries. -/
def OrderedEffectCell.new (data : T) : OrderedEffectCell T E :=
  ⟨data, [], []⟩

/-- Embeds `OrderedEffectCell::into_inner`: returns the stored data with no
effect running. -/
def OrderedEffectCell.into_inner (c : OrderedEffectCell T E) : T :=
  c.data

/-- Embeds `OrderedEffectCell::bind`: pushes the new effect at the end of the
registry selected by the order tag. -/
def OrderedEffectCell.bind (c : OrderedEffectCell T E) (ord : EffectOrder)
    (effect : E) : OrderedEffectCell T E :=
  match ord with
  | .Prior => { c with prior_effects := c.prior_effects ++ [effect] }
  | .Post => { c with post_effects := c.post_effects ++ [effect] }

/-- Embeds `OrderedEffectCell::call`: runs the effects of the registry named
by the tag, in registration order, each on the current data; the cell itself
is unchanged. -/
def OrderedEffectCell.call (c : OrderedEffectCell T E) (ord : EffectOrder) :
    OrderedEffectCell T E × List (E × T) :=
  match ord with
  | .Prior => (c, c.prior_effects.map fun f => (f, c.data))
  | .Post => (c, c.post_effects.map fun f => (f, c.data))

/-- Embeds `OrderedEffectCell::consume`:
`self.call(Prior); self.call(Post)` on the unchanged data, then the cell is
gone, so only the concatenated trace remains. -/
def OrderedEffectCell.consume (c : OrderedEffectCell T E) : List (E × T) :=
  (c.call .Prior).2 ++ (c.call .Post).2

/-- Embeds `OrderedEffectCell::update`:
`self.call(Prior); self.data = new; self.call(Post)`. -/
def OrderedEffectCell.update (c : OrderedEffectCell T E) (new : T) :
    OrderedEffectCell T E × List (E × T) :=
  let t1 := (c.call .Prior).2
  let c1 := { c with data := new }
  (c1, t1 ++ (c1.call .Post).2)

/-- Embeds `OrderedEffectCell::update_lambda`:
`self.call(Prior); lambda(&mut self.data); self.call(Post)`. -/
def OrderedEffectCell.update_lambda (c : OrderedEffectCell T E)
    (lambda : T → T) : OrderedEffectCell T E × List (E × T) :=
  let t1 := (c.call .Prior).2
  let c1 := { c with data := lambda c.data }
  (c1, t1 ++ (c1.call .Post).2)

/-- Embeds `OrderedEffectCell::set`: `self.data = new;` with no effect
invocation. -/
def OrderedEffectCell.set (c : OrderedEffectCell T E) (new : T) :
    OrderedEffectCell T E × List (E × T) :=
  ({ c with data := new }, [])

/-- Embeds `OrderedEffectCell::set_lambda`.  As for `EffectCell.set_lambda`,
the closure bound in the source is `FnMut(&T)`, so the closure receives only a
read-only view of the data through the `&mut T` to `&T` coercion and cannot
change it; the cell is returned unchanged and no registered effect runs. -/
def OrderedEffectCell.set_lambda (c : OrderedEffectCell T E) (_lambda : T → T) :
    OrderedEffectCell T E × List (E × T) :=
  (c, [])

/-- Embeds the `impl_pass_op_ord!` macro instantiated at `OrderedEffectCell`
(all ten compound-assignment operators):
`self.call(Prior); self.data $op other; self.call(Post)`. -/
def OrderedEffectCell.pass_op (c : OrderedEffectCell T E) (op : T → T → T)
    (other : T) : OrderedEffectCell T E × List (E × T) :=
  let t1 := (c.call .Prior).2
  let c1 := { c with data := op c.data other }
  (c1, t1 ++ (c1.call .Post).2)

/-- Embeds `impl PartialEq for OrderedEffectCell<T>`:
`self.data == other.data`. -/
def OrderedEffectCell.eq (beq : T → T → Bool) (c other : OrderedEffectCell T E) :
    Bool :=
  beq c.data other.data

/-- Embeds `impl PartialEq<T> for OrderedEffectCell<T>`:
`&self.data == other`. -/
def OrderedEffectCell.eq_value (beq : T → T → Bool) (c : OrderedEffectCell T E)
    (other : T) : Bool :=
  beq c.data other

/-- Embeds `impl PartialOrd for OrderedEffectCell<T>`:
`self.data.partial_cmp(&other.data)`. -/
def OrderedEffectCell.partial_cmp (pc : T → T → Option Ordering)
    (c other : OrderedEffectCell T E) : Option Ordering :=
  pc c.data other.data

/-- Embeds `impl PartialOrd<T> for OrderedEffectCell<T>`:
`self.data.partial_cmp(other)`. -/
def OrderedEffectCell.partial_cmp_value (pc : T → T → Option Ordering)
    (c : OrderedEffectCell T E) (other : T) : Option Ordering :=
  pc c.data other

/-- Modelled from the spec: the Single-Effect Cell of spec section 4.3 is
missing from `src/` — only its caller `src/main.rs`
(`EffectCell::new(0, |_| counter += 1)`) remains.  Following the spec's words,
it "holds one value and exactly one effect", both mandatory at
construction. -/
structure SingleEffectCell (T E : Type) where
  data : T
  effect : E
deriving Repr, DecidableEq

/-- Modelled from the spec: `new(value, effect)`, "both required at
construction". -/
def SingleEffectCell.new (data : T) (effect : E) : SingleEffectCell T E :=
  ⟨data, effect⟩

/-- Modelled from the spec: `shift_left_assign(rhs)` "invokes the effect with
the current (old) value, then replaces the value with `rhs`". -/
def SingleEffectCell.shift_left_assign (c : SingleEffectCell T E) (rhs : T) :
    SingleEffectCell T E × List (E × T) :=
  ({ c with data := rhs }, [(c.effect, c.data)])

/-- Modelled from the spec: `update(new_value)` is "defined purely as an alias
for the shift-left-assign operator". -/
def SingleEffectCell.update (c : SingleEffectCell T E) (new : T) :
    SingleEffectCell T E × List (E × T) :=
  c.shift_left_assign new

/-- An arbitrary operation on an `EffectCell`, used to reason about arbitrary
interleavings of silent writes and effectful calls. -/
inductive CellOp (T : Type) where
  | update : T → CellOp T
  | update_lambda : (T → T) → CellOp T
  | set : T → CellOp T
  | set_lambda : (T → T) → CellOp T
  | call : CellOp T
  | pass_op : (T → T → T) → T → CellOp T

/-- Whether the operation is an effectful call (`update`, `update_lambda`,
`call`, a compound-assignment operator) as opposed to a silent write (`set`,
`set_lambda`). -/
def CellOp.effectful : CellOp T → Bool
  | .set _ => false
  | .set_lambda _ => false
  | _ => true

/-- Runs one operation on an `EffectCell`. -/
def EffectCell.runOp (c : EffectCell T E) : CellOp T →
    EffectCell T E × List (E × T)
  | .update v => c.update v
  | .update_lambda f => c.update_lambda f
  | .set v => c.set v
  | .set_lambda f => c.set_lambda f
  | .call => c.call
  | .pass_op op v => c.pass_op op v

/-- Runs a sequence of operations on an `EffectCell`, concatenating the
invocation traces in execution order. -/
def EffectCell.runOps (c : EffectCell T E) : List (CellOp T) →
    EffectCell T E × List (E × T)
  | [] => (c, [])
  | op :: ops =>
    let r := c.runOp op
    let r2 := r.1.runOps ops
    (r2.1, r.2 ++ r2.2)

/-- An arbitrary operation on an `OrderedEffectCell`: an update (effectful) or
a silent write. -/
inductive OrdCellOp (T : Type) where
  | update : T → OrdCellOp T
  | update_lambda : (T → T) → OrdCellOp T
  | set : T → OrdCellOp T
  | set_lambda : (T → T) → OrdCellOp T
  | pass_op : (T → T → T) → T → OrdCellOp T

/-- Whether the operation is an effectful call (`update`, `update_lambda`, a
compound-assignment operator) as opposed to a silent write. -/
def OrdCellOp.effectful : OrdCellOp T → Bool
  | .set _ => false
  | .set_lambda _ => false
  | _ => true

/-- Runs one operation on an `OrderedEffectCell`. -/
def OrderedEffectCell.runOp (c : OrderedEffectCell T E) : OrdCellOp T →
    OrderedEffectCell T E × List (E × T)
  | .update v => c.update v
  | .update_lambda f => c.update_lambda f
  | .set v => c.set v
  | .set_lambda f => c.set_lambda f
  | .pass_op op v => c.pass_op op v

/-- Runs a sequence of operations on an `OrderedEffectCell`, concatenating the
invocation traces in execution order. -/
def OrderedEffectCell.runOps (c : OrderedEffectCell T E) : List (OrdCellOp T) →
    OrderedEffectCell T E × List (E × T)
  | [] => (c, [])
  | op :: ops =>
    let r := c.runOp op
    let r2 := r.1.runOps ops
    (r2.1, r.2 ++ r2.2)

/-- Claim C1: `OrderedEffectCell.update` and `OrderedEffectCell.update_lambda`
first invoke all `Prior` effects with the value as it was before the change,
then replace (or mutate in place) the value, then invoke all `Post` effects
with the resulting new value; the trace shows every `Prior` invocation
observing the old value and every `Post` invocation observing the new one. -/
theorem ordered_update_prior_sees_old_post_sees_new
    (c : OrderedEffectCell T E) (v : T) (m : T → T) :
    (c.update v).1.data = v ∧
    (c.update v).2 =
      (c.prior_effects.map fun f => (f, c.data)) ++
        (c.post_effects.map fun f => (f, v)) ∧
    (c.update_lambda m).1.data = m c.data ∧
    (c.update_lambda m).2 =
      (c.prior_effects.map fun f => (f, c.data)) ++
        (c.post_effects.map fun f => (f, m c.data)) :=
  ⟨rfl, rfl, rfl, rfl⟩

/-- Claim C2: for the single-effect cell, `shift_left_assign(rhs)` invokes the
bound effect with the current (old) value and then replaces the stored value
with `rhs`, and `update` behaves identically to it. -/
theorem single_effect_shl_assign_observes_old_value
    (c : SingleEffectCell T E) (rhs : T) :
    (c.shift_left_assign rhs).2 = [(c.effect, c.data)] ∧
    (c.shift_left_assign rhs).1.data = rhs ∧
    c.update rhs = c.shift_left_assign rhs :=
  ⟨rfl, rfl, rfl⟩

/-- Claim C3 (code bug): at the concrete mutator that increments the value by
one, `set_lambda` leaves the stored value at `0` while `update_lambda` takes
it to `1`, for both cell variants — the `FnMut(&T)` bound on the closure
argument of `set_lambda` makes the in-place mutation the claim (and the
function's own doc comment) promises impossible. -/
theorem set_lambda_leaves_value_unchanged :
    ((EffectCell.new 0 : EffectCell Nat Nat).set_lambda
        (fun d => d + 1)).1.into_inner = 0 ∧
    ((EffectCell.new 0 : EffectCell Nat Nat).update_lambda
        (fun d => d + 1)).1.into_inner = 1 ∧
    ((OrderedEffectCell.new 0 : OrderedEffectCell Nat Nat).set_lambda
        (fun d => d + 1)).1.into_inner = 0 ∧
    ((OrderedEffectCell.new 0 : OrderedEffectCell Nat Nat).update_lambda
        (fun d => d + 1)).1.into_inner = 1 :=
  ⟨rfl, rfl, rfl, rfl⟩

/-- Claim C4: `EffectCell.update` sets the stored value to the new value and
invokes every registered effect exactly once, in registration order, each
observing the new value: the trace is exactly the registry, in order, paired
with the new value. -/
theorem update_runs_effects_in_order_with_new_value
    (c : EffectCell T E) (v : T) :
    (c.update v).1.data = v ∧
    (c.update v).1.effects = c.effects ∧
    (c.update v).2 = c.effects.map fun f => (f, v) :=
  ⟨rfl, rfl, rfl⟩

/-- Claim C7: `consume` triggers each bound effect exactly once with the
current value (the trace is exactly the registry paired with the current
data); for the ordered variant, the `Prior` registry's trace precedes the
`Post` registry's trace. -/
theorem consume_runs_each_effect_once_prior_before_post
    (c : EffectCell T E) (c2 : OrderedEffectCell T E) :
    c.consume = (c.effects.map fun f => (f, c.data)) ∧
    c2.consume =
      (c2.prior_effects.map fun f => (f, c2.data)) ++
        (c2.post_effects.map fun f => (f, c2.data)) :=
  ⟨rfl, rfl⟩

/-- Claim C8: every compound-assignment operator generated by the pass-through
macros produces, for every operator, cell and operand, exactly the same
resulting cell and the same effect-invocation trace as `update_lambda` with
the equivalent in-place application of that operator. -/
theorem pass_op_equals_update_lambda
    (c : EffectCell T E) (c2 : OrderedEffectCell T E) (op : T → T → T)
    (other : T) :
    c.pass_op op other = c.update_lambda (fun d => op d other) ∧
    c2.pass_op op other = c2.update_lambda (fun d => op d other) :=
  ⟨rfl, rfl⟩

/-- Claim C9: cell-to-cell and cell-to-value equality and ordering delegate
exactly to the stored values' own comparison, whatever the effect registries
are: the result only mentions the stored data. -/
theorem comparison_delegates_to_stored_values
    (beq : T → T → Bool) (pc : T → T → Option Ordering)
    (d d' v : T) (es es' ps ps' qs qs' : List E) :
    EffectCell.eq beq ⟨d, es⟩ ⟨d', es'⟩ = beq d d' ∧
    EffectCell.eq_value beq ⟨d, es⟩ v = beq d v ∧
    EffectCell.partial_cmp pc ⟨d, es⟩ ⟨d', es'⟩ = pc d d' ∧
    EffectCell.partial_cmp_value pc ⟨d, es⟩ v = pc d v ∧
    OrderedEffectCell.eq beq ⟨d, ps, qs⟩ ⟨d', ps', qs'⟩ = beq d d' ∧
    OrderedEffectCell.eq_value beq ⟨d, ps, qs⟩ v = beq d v ∧
    OrderedEffectCell.partial_cmp pc ⟨d, ps, qs⟩ ⟨d', ps', qs'⟩ = pc d d' ∧
    OrderedEffectCell.partial_cmp_value pc ⟨d, ps, qs⟩ v = pc d v :=
  ⟨rfl, rfl, rfl, rfl, rfl, rfl, rfl, rfl⟩

/-- Claim C10: `bind` appends exactly one effect at the end of the selected
registry, leaving the other registry and the stored value unchanged, and
`call`, `update`, `update_lambda`, `set`, `set_lambda` and the
compound-assignment operators never change any registry. -/
theorem bind_appends_and_other_ops_preserve_registry
    (c : EffectCell T E) (c2 : OrderedEffectCell T E) (e : E) (v : T)
    (m : T → T) (op : T → T → T) :
    (c.bind e).effects = c.effects ++ [e] ∧
    (c.bind e).data = c.data ∧
    c.call.1 = c ∧
    (c.update v).1.effects = c.effects ∧
    (c.update_lambda m).1.effects = c.effects ∧
    (c.set v).1.effects = c.effects ∧
    (c.set_lambda m).1.effects = c.effects ∧
    (c.pass_op op v).1.effects = c.effects ∧
    (c2.bind .Prior e).prior_effects = c2.prior_effects ++ [e] ∧
    (c2.bind .Prior e).post_effects = c2.post_effects ∧
    (c2.bind .Prior e).data = c2.data ∧
    (c2.bind .Post e).post_effects = c2.post_effects ++ [e] ∧
    (c2.bind .Post e).prior_effects = c2.prior_effects ∧
    (c2.bind .Post e).data = c2.data ∧
    (∀ ord, (c2.call ord).1 = c2) ∧
    (c2.update v).1.prior_effects = c2.prior_effects ∧
    (c2.update v).1.post_effects = c2.post_effects ∧
    (c2.update_lambda m).1.prior_effects = c2.prior_effects ∧
    (c2.update_lambda m).1.post_effects = c2.post_effects ∧
    (c2.set v).1.prior_effects = c2.prior_effects ∧
    (c2.set v).1.post_effects = c2.post_effects ∧
    (c2.set_lambda m).1.prior_effects = c2.prior_effects ∧
    (c2.set_lambda m).1.post_effects = c2.post_effects ∧
    (c2.pass_op op v).1.prior_effects = c2.prior_effects ∧
    (c2.pass_op op v).1.post_effects = c2.post_effects := by
  refine ⟨rfl, rfl, rfl, rfl, rfl, rfl, rfl, rfl, rfl, rfl, rfl, rfl, rfl,
    rfl, ?_, rfl, rfl, rfl, rfl, rfl, rfl, rfl, rfl, rfl, rfl⟩
  intro ord
  cases ord <;> rfl

lemma EffectCell.runOp_fst_effects (c : EffectCell T E) (op : CellOp T) :
    (c.runOp op).1.effects = c.effects := by
  cases op <;> rfl

lemma EffectCell.runOp_countP [DecidableEq E] (c : EffectCell T E)
    (op : CellOp T) (e : E) :
    ((c.runOp op).2.countP fun p => decide (p.1 = e)) =
      if op.effectful then c.effects.countP (fun f => decide (f = e)) else 0 := by
  cases op <;>
    simp [EffectCell.runOp, EffectCell.update, EffectCell.update_lambda,
      EffectCell.set, EffectCell.set_lambda, EffectCell.call,
      EffectCell.pass_op, CellOp.effectful, List.countP_map,
      Function.comp_def]

lemma EffectCell.runOps_countP [DecidableEq E] (c : EffectCell T E)
    (ops : List (CellOp T)) (e : E) :
    ((c.runOps ops).2.countP fun p => decide (p.1 = e)) =
      (c.effects.countP fun f => decide (f = e)) * ops.countP CellOp.effectful := by
  induction ops generalizing c with
  | nil => simp [EffectCell.runOps]
  | cons op ops ih =>
    simp only [EffectCell.runOps, List.countP_append, List.countP_cons]
    rw [ih, EffectCell.runOp_fst_effects, EffectCell.runOp_countP]
    cases hop : op.effectful
    · simp [hop]
    · simp only [hop, if_pos trivial, Nat.mul_add, Nat.mul_one]
      ring

lemma OrderedEffectCell.runOp_fst_prior (c : OrderedEffectCell T E)
    (op : OrdCellOp T) : (c.runOp op).1.prior_effects = c.prior_effects := by
  cases op <;> rfl

lemma OrderedEffectCell.runOp_fst_post (c : OrderedEffectCell T E)
    (op : OrdCellOp T) : (c.runOp op).1.post_effects = c.post_effects := by
  cases op <;> rfl

lemma OrderedEffectCell.ord_runOp_countP [DecidableEq E]
    (c : OrderedEffectCell T E) (op : OrdCellOp T) (e : E) :
    ((c.runOp op).2.countP fun p => decide (p.1 = e)) =
      if op.effectful then
        (c.prior_effects.countP fun f => decide (f = e)) +
          (c.post_effects.countP fun f => decide (f = e))
      else 0 := by
  cases op <;>
    simp [OrderedEffectCell.runOp, OrderedEffectCell.update,
      OrderedEffectCell.update_lambda, OrderedEffectCell.set,
      OrderedEffectCell.set_lambda, OrderedEffectCell.call,
      OrderedEffectCell.pass_op, OrdCellOp.effectful, List.countP_append,
      List.countP_map, Function.comp_def]

lemma OrderedEffectCell.ord_runOps_countP [DecidableEq E]
    (c : OrderedEffectCell T E) (ops : List (OrdCellOp T)) (e : E) :
    ((c.runOps ops).2.countP fun p => decide (p.1 = e)) =
      ((c.prior_effects.countP fun f => decide (f = e)) +
        (c.post_effects.countP fun f => decide (f = e))) *
        ops.countP OrdCellOp.effectful := by
  induction ops generalizing c with
  | nil => simp [OrderedEffectCell.runOps]
  | cons op ops ih =>
    simp only [OrderedEffectCell.runOps, List.countP_append, List.countP_cons]
    rw [ih, OrderedEffectCell.runOp_fst_prior, OrderedEffectCell.runOp_fst_post,
      OrderedEffectCell.ord_runOp_countP]
    cases hop : op.effectful
    · simp [hop]
    · simp only [hop, if_pos trivial, Nat.mul_add, Nat.mul_one]
      ring

/-- Claim C5: silent writes never invoke any registered effect — over any
sequence of operations (silent writes interleaved with effectful calls, in
any order and number), each registered effect appears in the trace exactly
(number of its occurrences in the registry) times (number of effectful
operations), independent of how many silent writes occur; for the ordered
variant, with its two registries combined. -/
theorem effect_count_independent_of_silent_writes [DecidableEq E]
    (c : EffectCell T E) (ops : List (CellOp T))
    (c2 : OrderedEffectCell T E) (ops2 : List (OrdCellOp T)) (e : E) :
    ((c.runOps ops).2.countP fun p => decide (p.1 = e)) =
      (c.effects.countP fun f => decide (f = e)) *
        ops.countP CellOp.effectful ∧
    ((c2.runOps ops2).2.countP fun p => decide (p.1 = e)) =
      ((c2.prior_effects.countP fun f => decide (f = e)) +
        (c2.post_effects.countP fun f => decide (f = e))) *
        ops2.countP OrdCellOp.effectful :=
  ⟨EffectCell.runOps_countP c ops e, OrderedEffectCell.ord_runOps_countP c2 ops2 e⟩

lemma EffectCell.runOp_silent (c : EffectCell T E) (op : CellOp T)
    (hop : op.effectful = false) : (c.runOp op).2 = [] := by
  cases op <;>
    simp_all [CellOp.effectful, EffectCell.runOp, EffectCell.set,
      EffectCell.set_lambda]

lemma EffectCell.runOps_silent (c : EffectCell T E) (ops : List (CellOp T))
    (h : ∀ op ∈ ops, op.effectful = false) : (c.runOps ops).2 = [] := by
  induction ops generalizing c with
  | nil => rfl
  | cons op ops ih =>
    simp only [EffectCell.runOps]
    rw [EffectCell.runOp_silent c op (h op (List.mem_cons_self op ops)),
      List.nil_append]
    exact ih _ fun o ho => h o (List.mem_cons_of_mem op ho)

lemma OrderedEffectCell.ord_runOp_silent (c : OrderedEffectCell T E)
    (op : OrdCellOp T) (hop : op.effectful = false) : (c.runOp op).2 = [] := by
  cases op <;>
    simp_all [OrdCellOp.effectful, OrderedEffectCell.runOp,
      OrderedEffectCell.set, OrderedEffectCell.set_lambda]

lemma OrderedEffectCell.ord_runOps_silent (c : OrderedEffectCell T E)
    (ops : List (OrdCellOp T)) (h : ∀ op ∈ ops, op.effectful = false) :
    (c.runOps ops).2 = [] := by
  induction ops generalizing c with
  | nil => rfl
  | cons op ops ih =>
    simp only [OrderedEffectCell.runOps]
    rw [OrderedEffectCell.ord_runOp_silent c op (h op (List.mem_cons_self op ops)),
      List.nil_append]
    exact ih _ fun o ho => h o (List.mem_cons_of_mem op ho)

/-- Claim C6: a lifetime containing only silent writes (in particular the
empty one: letting the cell go out of scope) triggers no bound effect — the
trace is empty — and `into_inner` hands back the stored value unchanged
without invoking any effect, for both cell variants. -/
theorem no_effect_on_silent_lifetime (c : EffectCell T E)
    (ops : List (CellOp T)) (c2 : OrderedEffectCell T E)
    (ops2 : List (OrdCellOp T)) (h : ∀ op ∈ ops, op.effectful = false)
    (h2 : ∀ op ∈ ops2, op.effectful = false) :
    (c.runOps ops).2 = [] ∧ c.into_inner = c.data ∧
    (c2.runOps ops2).2 = [] ∧ c2.into_inner = c2.data :=
  ⟨EffectCell.runOps_silent c ops h, rfl,
    OrderedEffectCell.ord_runOps_silent c2 ops2 h2, rfl⟩

/-- Claim C6, witness: a plain cell holding `0` with one bound effect and an
ordered cell holding `0` with one effect per registry, after a silent write,
have produced no effect invocation, and `into_inner` returns the stored
value. -/
theorem no_effect_on_silent_lifetime_witness :
    ((EffectCell.mk 0 [7] : EffectCell Nat Nat).runOps [CellOp.set 5]).2 = [] ∧
    (EffectCell.mk 0 [7] : EffectCell Nat Nat).into_inner = 0 ∧
    ((OrderedEffectCell.mk 0 [7] [8] : OrderedEffectCell Nat Nat).runOps
      [OrdCellOp.set 5]).2 = [] ∧
    (OrderedEffectCell.mk 0 [7] [8] : OrderedEffectCell Nat Nat).into_inner = 0 :=
  no_effect_on_silent_lifetime (EffectCell.mk 0 [7]) [CellOp.set 5]
    (OrderedEffectCell.mk 0 [7] [8]) [OrdCellOp.set 5]
    (by intro op hop; simp at hop; subst hop; rfl)
    (by intro op hop; simp at hop; subst hop; rfl)
